import Mathlib

/-!
Shallow embedding of the aura-ai-gateway core (Go) and proofs about it.

The embedding covers, faithfully to the Go source:
  * `internal/gateway/circuitbreaker.go` — process-wide constants and the
    Redis-backed ledger (`RedisCircuitBreaker`);
  * `internal/gateway/memory_circuitbreaker.go` — the in-process ledger
    (`MemoryCircuitBreaker`, a `sync.Map` of per-key `int64` counters);
  * `internal/gateway/handler.go` — `ProxyHandler.ServeHTTP` through the
    construction of the outbound (upstream) request;
  * the stream relay `StreamResponse` (SSE line relay plus usage extraction)
    and the usage-record hand-off `select { case ch <- rec: default: }`.

Modelling conventions:
  * Go `int64` values are `Int` with wrapping made explicit through `wrap64`
    (twos-complement reduction into `[-2^63, 2^63)`).
  * Fallible Go results `(T, error)` become `Except String T`; `nil` error is
    `Except.ok`.
  * Byte slices are `List Nat` (each entry one byte; `10` is LF, `13` is CR).
  * External library behaviour is either reproduced (bufio.Scanner line
    splitting, including the 1 MiB token ceiling `scanner.Buffer(buf,
    1024*1024)`) or abstracted into an explicit oracle parameter
    (`encoding/json` parsing, which the relay and handler only consult
    through a fixed interface). The Redis store is modelled value-level: keys
    map to the base-10 `int64` reading of the stored string, which is the
    invariant `INCRBY` maintains, and `INCRBY` rejects results outside the
    signed 64-bit range instead of wrapping.
-/

/-- Twos-complement reduction of an unbounded integer into the `int64`
range `[-2^63, 2^63)`, used wherever Go 64-bit arithmetic can wrap. -/
def wrap64 (x : Int) : Int :=
  (x + 2 ^ 63) % 2 ^ 64 - 2 ^ 63

/-- Constant `MaxUsageMicroDollars` from `circuitbreaker.go`: the spend limit,
$10.00 in micro-dollars. -/
def MaxUsageMicroDollars : Int := 10000000

/-- Constant `CostPerTokenMicroDollars` from `circuitbreaker.go`: flat cost of
one token, 2 micro-dollars. -/
def CostPerTokenMicroDollars : Int := 2

/-- State of `MemoryCircuitBreaker` (`memory_circuitbreaker.go`): the
`sync.Map` from API key to the value of its `int64` counter. An absent key
models a key never passed to `LoadOrStore`. -/
structure MemoryCircuitBreaker where
  usageMap : String → Option Int

/-- Constructor `NewMemoryCircuitBreaker`: the empty map. -/
def NewMemoryCircuitBreaker : MemoryCircuitBreaker :=
  { usageMap := fun _ => none }

/-- Method `MemoryCircuitBreaker.CheckLimit`: `Load` the key; a missing key
means usage 0 and the request is allowed; otherwise compare the loaded usage
with the limit. The Go method never mutates the map and always returns a nil
error, which the model reflects by returning the receiver unchanged together
with `Except.ok`. -/
def MemoryCircuitBreaker.CheckLimit (r : MemoryCircuitBreaker) (apiKey : String) :
    MemoryCircuitBreaker × Except String Bool :=
  match r.usageMap apiKey with
  | none => (r, .ok true)
  | some usage => (r, .ok (decide (usage < MaxUsageMicroDollars)))

/-- Method `MemoryCircuitBreaker.AddUsage`: compute
`cost := int64(tokenCount) * CostPerTokenMicroDollars` (64-bit multiply, may
wrap), `LoadOrStore(apiKey, 0)`, then `atomic.AddInt64` of the cost (64-bit
add, may wrap). Always returns a nil error. -/
def MemoryCircuitBreaker.AddUsage (r : MemoryCircuitBreaker) (apiKey : String)
    (tokenCount : Int) : MemoryCircuitBreaker × Except String Unit :=
  let cost := wrap64 (tokenCount * CostPerTokenMicroDollars)
  let cur := (r.usageMap apiKey).getD 0
  ({ usageMap := fun k => if k = apiKey then some (wrap64 (cur + cost)) else r.usageMap k },
   .ok ())

/-- Method `MemoryCircuitBreaker.GetUsage`: `Load` the key, defaulting to 0
when absent; never mutates, never errs. -/
def MemoryCircuitBreaker.GetUsage (r : MemoryCircuitBreaker) (apiKey : String) :
    MemoryCircuitBreaker × Except String Int :=
  match r.usageMap apiKey with
  | none => (r, .ok 0)
  | some usage => (r, .ok usage)

/-- Spend of a key as observable through `MemoryCircuitBreaker.GetUsage`
(0 when the key is absent). -/
def memSpend (r : MemoryCircuitBreaker) (apiKey : String) : Int :=
  (r.usageMap apiKey).getD 0

/-- Function `getUsageKey` from `circuitbreaker.go`:
`fmt.Sprintf("apikey:%s:usage", apiKey)`. -/
def getUsageKey (apiKey : String) : String :=
  "apikey:" ++ apiKey ++ ":usage"

/-- State of the Redis store behind `RedisCircuitBreaker`. Keys map to the
base-10 `int64` reading of the stored string; this is the invariant that
`INCRBY` maintains for every key the gateway writes, so `strconv.ParseInt`
on a read value succeeds and yields exactly this integer. -/
structure RedisState where
  store : String → Option Int

/-- Method `RedisCircuitBreaker.CheckLimit`: `GET` the usage key; `redis.Nil`
(absent key) means usage 0 and the request is allowed; otherwise parse and
compare with the limit. Reads do not mutate the store. -/
def RedisCircuitBreaker.CheckLimit (st : RedisState) (apiKey : String) :
    RedisState × Except String Bool :=
  match st.store (getUsageKey apiKey) with
  | none => (st, .ok true)
  | some usage => (st, .ok (decide (usage < MaxUsageMicroDollars)))

/-- Method `RedisCircuitBreaker.AddUsage`: compute
`cost := int64(tokenCount) * CostPerTokenMicroDollars` (client-side 64-bit
multiply, may wrap), then `INCRBY` the usage key by it. `INCRBY` treats an
absent key as 0 and replies with an error, leaving the key unchanged, when
the result would leave the signed 64-bit range. -/
def RedisCircuitBreaker.AddUsage (st : RedisState) (apiKey : String)
    (tokenCount : Int) : RedisState × Except String Unit :=
  let cost := wrap64 (tokenCount * CostPerTokenMicroDollars)
  let cur := (st.store (getUsageKey apiKey)).getD 0
  if -(2 ^ 63) ≤ cur + cost ∧ cur + cost < 2 ^ 63 then
    ({ store := fun k => if k = getUsageKey apiKey then some (cur + cost) else st.store k },
     .ok ())
  else
    (st, .error "ERR increment or decrement would overflow")

/-- Method `RedisCircuitBreaker.GetUsage`: `GET` the usage key, 0 when
absent; reads do not mutate the store. -/
def RedisCircuitBreaker.GetUsage (st : RedisState) (apiKey : String) :
    RedisState × Except String Int :=
  match st.store (getUsageKey apiKey) with
  | none => (st, .ok 0)
  | some usage => (st, .ok usage)

/-- Spend of a key as observable through `RedisCircuitBreaker.GetUsage`. -/
def redisSpend (st : RedisState) (apiKey : String) : Int :=
  (st.store (getUsageKey apiKey)).getD 0

/-- Byte list of an ASCII string, for writing concrete byte sequences. -/
def strBytes (s : String) : List Nat :=
  s.toList.map Char.toNat

/-- Function `dropCR` used by `bufio.ScanLines`: remove one terminal carriage
return (byte 13) from a line, if present. -/
def dropCR (l : List Nat) : List Nat :=
  if l.getLast? = some 13 then l.dropLast else l

/-- Line splitting performed by `bufio.Scanner` with split function
`ScanLines` and a buffer capped at `max` bytes, as configured in
`StreamResponse` (`scanner.Buffer(buf, 1024*1024)`). The first component is
the list of emitted tokens (lines without their newline, with a terminal CR
dropped); the second is `true` when scanning stopped with `ErrTooLong`
because a line did not fit the buffer. `cur` is the (reversed) portion of
the current line already consumed. A final line at end of input is emitted
without a trailing newline; an empty trailing segment emits no token. -/
def scanGo (max : Nat) (cur : List Nat) : List Nat → List (List Nat) × Bool
  | [] => (if cur = [] then [] else [dropCR cur.reverse], false)
  | b :: rest =>
    if cur.length < max then
      if b = 10 then
        let p := scanGo max [] rest
        (dropCR cur.reverse :: p.1, p.2)
      else
        scanGo max (b :: cur) rest
    else
      ([], true)

/-- Buffer cap passed to `scanner.Buffer` in `StreamResponse`: 1 MiB. -/
def scannerBufferMax : Nat := 1048576

/-- Concatenation of lines, each followed by exactly one LF — the shape of
the bytes `StreamResponse` writes (`w.Write(line); w.Write([]byte("\n"))`). -/
def joinLines : List (List Nat) → List Nat
  | [] => []
  | l :: ls => l ++ 10 :: joinLines ls

/-- Struct `UsageRecord` from the relay: the token usage sent to the
background processor. `TokenCount` is a Go `int`. -/
structure UsageRecord where
  APIKey : String
  TokenCount : Int
deriving DecidableEq

/-- Bytes of the SSE data marker `"data: "` checked by `StreamResponse`. -/
def dataMarker : List Nat := strBytes "data: "

/-- Bytes of the terminal sentinel `"[DONE]"` checked by `StreamResponse`. -/
def doneSequence : List Nat := strBytes "[DONE]"

/-- Per-line update of the relay variable `tokenCount`, mirroring the body
of the scan loop in `StreamResponse`: on a line bearing the `"data: "`
marker whose payload is not the `"[DONE]"` sentinel, attempt the JSON parse
(abstracted as the oracle `p`, which returns `some n` exactly when
`json.Unmarshal` succeeds and the chunk has a non-nil `usage` object with
`total_tokens = n`); a successful parse overwrites `tokenCount`, anything
else leaves it unchanged. -/
def usageStep (p : List Nat → Option Int) (tc : Int) (line : List Nat) : Int :=
  if dataMarker.isPrefixOf line then
    let data := line.drop 6
    if doneSequence.isPrefixOf data then tc
    else
      match p data with
      | some n => n
      | none => tc
  else tc

/-- Observable result of `StreamResponse`: the body bytes written to the
caller and the usage records pushed into the channel. -/
structure RelayResult where
  output : List Nat
  events : List UsageRecord
deriving DecidableEq

/-- Function `StreamResponse` from the relay, for a caller whose
`ResponseWriter` supports flushing. The upstream body is scanned line by
line (buffer capped at 1 MiB); each emitted line is written to the caller
followed by one LF and flushed before it is inspected; `tokenCount` starts
at 0 and is updated by `usageStep`. After the loop — whether it ended at end
of input or with a scanner error — a single `UsageRecord` is pushed iff
`tokenCount > 0`, the API key is non-empty, and the channel is non-nil
(`chanPresent`). Header copying is outside this model; `p` is the JSON
oracle of `usageStep`. -/
def StreamResponse (p : List Nat → Option Int) (body : List Nat)
    (apiKey : String) (chanPresent : Bool) : RelayResult :=
  let scanned := (scanGo scannerBufferMax [] body).1
  let final := scanned.foldl
    (fun (st : List Nat × Int) line => (st.1 ++ line ++ [10], usageStep p st.2 line))
    ([], 0)
  { output := final.1,
    events :=
      if 0 < final.2 ∧ apiKey ≠ "" ∧ chanPresent = true then
        [{ APIKey := apiKey, TokenCount := final.2 }]
      else [] }

/-- Usage figures observed across a list of relayed lines, in order: the
values the oracle parses out of `"data: "` lines that are not the
`"[DONE]"` sentinel. Used to state which figures a stream carries. -/
def observedFigures (p : List Nat → Option Int) : List (List Nat) → List Int
  | [] => []
  | line :: rest =>
    if dataMarker.isPrefixOf line ∧ ¬ doneSequence.isPrefixOf (line.drop 6) then
      match p (line.drop 6) with
      | some n => n :: observedFigures p rest
      | none => observedFigures p rest
    else observedFigures p rest

/-- Observability signals the usage hand-off could emit (spec §6 lists a
dropped-event signal among the collaborator surface). -/
inductive ObsSignal where
  | usageEventDropped (rec : UsageRecord)
deriving DecidableEq

/-- State of the usage hand-off: the buffered channel
`make(chan UsageRecord, capacity)` between the relay and the background
worker. -/
structure Dispatcher where
  capacity : Nat
  queue : List UsageRecord
deriving DecidableEq

/-- The hand-off `select { case usageChan <- record: default: }` performed at
the end of `StreamResponse`: if the channel buffer has room the record is
enqueued, otherwise the `default` branch runs — which in the source contains
only a comment, so the record is discarded and no signal of any kind is
emitted in either branch. The second component is the list of observability
signals actually emitted. -/
def Dispatcher.submit (d : Dispatcher) (rec : UsageRecord) :
    Dispatcher × List ObsSignal :=
  if d.queue.length < d.capacity then
    ({ d with queue := d.queue ++ [rec] }, [])
  else
    (d, [])

/-- JSON values as decoded by `encoding/json` into `map[string]interface{}`
with `UseNumber` (numeric literals kept as their source text). -/
inductive JsonVal where
  | null
  | bool (b : Bool)
  | num (lit : String)
  | str (s : String)
  | arr (elems : List JsonVal)
  | obj (fields : List (String × JsonVal))

/-- A decoded top-level JSON object: the Go `map[string]interface{}`. Entries
have pairwise distinct keys when produced by the decoder; the update
operation below has Go map-assignment semantics either way. -/
abbrev Payload := List (String × JsonVal)

/-- Go map assignment `m[k] = v`: replace the value of an existing key in
place, or add the binding. -/
def setField (m : Payload) (k : String) (v : JsonVal) : Payload :=
  if m.any (fun p => p.1 = k) then
    m.map (fun p => if p.1 = k then (k, v) else p)
  else
    m ++ [(k, v)]

/-- Go map lookup `m[k]` (first binding of the key). -/
def getField (m : Payload) (k : String) : Option JsonVal :=
  (List.find? (fun p => p.1 = k) m).map Prod.snd

/-- The two assignments `ServeHTTP` performs on the decoded payload:
the key `stream` is assigned `true`, and the key `stream_options` is
assigned a one-field object binding `include_usage` to `true`. -/
def rewritePayload (payload : Payload) : Payload :=
  setField (setField payload "stream" (.bool true)) "stream_options"
    (.obj [("include_usage", .bool true)])

/-- API-key extraction at the top of `ServeHTTP`: the part of the
`Authorization` header after `"Bearer "`, when the header is longer than 7
characters and starts with exactly that prefix; otherwise the empty key. -/
def extractAPIKey (authHeader : String) : String :=
  if authHeader.length > 7 ∧ authHeader.take 7 = "Bearer " then
    authHeader.drop 7
  else ""

/-- Outcome of `ServeHTTP` up to the point where the upstream request is
made: either an `http.Error` response with the given status and no upstream
request, or an upstream request carrying the given rewritten JSON body. -/
inductive ServeResult where
  | errorResponse (status : Nat)
  | forwarded (outBody : Payload)

/-- Body-handling steps 3–4 of `ServeHTTP`: a non-empty body is decoded
(`jdec` is the `encoding/json` oracle: `none` for a decode error, `some
none` for JSON `null`, which leaves the Go map nil, `some (some p)` for an
object decoding to `p`); a decode error yields 400; a nil map is replaced by
an empty one; the two stream fields are then forced and the outbound request
constructed. -/
def serveBody (jdec : List Nat → Option (Option Payload)) (body : List Nat) :
    ServeResult :=
  if body.length > 0 then
    match jdec body with
    | none => .errorResponse 400
    | some none => .forwarded (rewritePayload [])
    | some (some payload) => .forwarded (rewritePayload payload)
  else
    .forwarded (rewritePayload [])

/-- Function `ServeHTTP` of `ProxyHandler`, through the construction of the
upstream request (step 5); the upstream transport outcome and the relay are
modelled separately by `StreamResponse`. `check` is the result of
`circuitBreaker.CheckLimit(apiKey)`, consulted only when the extracted key
is non-empty (the handler is always constructed with a non-nil breaker): a
breaker error yields 500, a denial yields 402 (`StatusPaymentRequired`),
before the body is ever read. -/
def ServeHTTP (jdec : List Nat → Option (Option Payload))
    (check : Except String Bool) (authHeader : String) (body : List Nat) :
    ServeResult :=
  if extractAPIKey authHeader ≠ "" then
    match check with
    | .error _ => .errorResponse 500
    | .ok false => .errorResponse 402
    | .ok true => serveBody jdec body
  else
    serveBody jdec body

/-- Payload of an SSE data line whose JSON carries a usage object with
`total_tokens` equal to 0 (a usage object whose total-token count is 0;
the brace bytes are written with escapes in the string below). -/
def usagePayloadZero : List Nat :=
  strBytes "\x7b\"usage\":\x7b\"total_tokens\":0\x7d\x7d"

/-- Oracle modelling the relay call to `json.Unmarshal` on `usagePayloadZero`:
decoding succeeds, the chunk has a non-nil usage object, and its
`total_tokens` field is 0 — so the parse reports the figure 0. On any other
input the oracle reports no usage object. -/
def usageOracleZero : List Nat → Option Int :=
  fun data => if data = usagePayloadZero then some 0 else none

/-- Upstream body consisting of one LF-terminated SSE data line carrying
`usagePayloadZero`. -/
def usageBodyZero : List Nat :=
  strBytes "data: " ++ usagePayloadZero ++ [10]

/-- Oracle modelling `encoding/json` decoding on byte sequences that are not
valid JSON: the decode fails. It is only ever applied to such inputs. -/
def jdecInvalid : List Nat → Option (Option Payload) := fun _ => none

theorem wrap64_eq_self (x : Int) (h1 : -(2 ^ 63) ≤ x) (h2 : x < 2 ^ 63) :
    wrap64 x = x := by
  unfold wrap64
  have h3 : (0 : Int) ≤ x + 2 ^ 63 := by linarith
  have h4 : x + 2 ^ 63 < 2 ^ 64 := by
    have h5 : (2 : Int) ^ 64 = 2 ^ 63 + 2 ^ 63 := by norm_num
    linarith
  rw [Int.emod_eq_of_lt h3 h4]
  ring

/-- C4: for both backends, the admission check returns allowed exactly when
the recorded spend is strictly below the limit, and a token absent from the
ledger has spend 0 and is allowed. -/
theorem CheckLimit_allowed_iff_spend_lt
    (m : MemoryCircuitBreaker) (st : RedisState) (k : String) :
    (m.CheckLimit k).2 = .ok (decide (memSpend m k < MaxUsageMicroDollars)) ∧
    (m.usageMap k = none →
      memSpend m k = 0 ∧ (m.CheckLimit k).2 = .ok true) ∧
    (RedisCircuitBreaker.CheckLimit st k).2
      = .ok (decide (redisSpend st k < MaxUsageMicroDollars)) ∧
    (st.store (getUsageKey k) = none →
      redisSpend st k = 0 ∧ (RedisCircuitBreaker.CheckLimit st k).2 = .ok true) := by
  refine ⟨?_, ?_, ?_, ?_⟩
  · cases h : m.usageMap k <;>
      simp [MemoryCircuitBreaker.CheckLimit, memSpend, h, MaxUsageMicroDollars]
  · intro h
    simp [MemoryCircuitBreaker.CheckLimit, memSpend, h]
  · cases h : st.store (getUsageKey k) <;>
      simp [RedisCircuitBreaker.CheckLimit, redisSpend, h, MaxUsageMicroDollars]
  · intro h
    simp [RedisCircuitBreaker.CheckLimit, redisSpend, h]

theorem CheckLimit_allowed_iff_spend_lt_witness :
    (NewMemoryCircuitBreaker.CheckLimit "k").2 = .ok true ∧
    (RedisCircuitBreaker.CheckLimit ⟨fun _ => none⟩ "k").2 = .ok true := by
  have h := CheckLimit_allowed_iff_spend_lt NewMemoryCircuitBreaker ⟨fun _ => none⟩ "k"
  exact ⟨(h.2.1 rfl).2, (h.2.2.2 rfl).2⟩

/-- C5 counterexample: the claim quantifies over every non-negative
`tokenCount`, but the cost is computed in 64-bit arithmetic. Recording
`2^62` tokens on a fresh caller makes `cost = 2^63` wrap to `-2^63`, so the
observed spend is `-2^63` — not the claimed increase of
`2^62 * CostPerTokenMicroDollars = 2^63` over the prior spend 0. -/
theorem AddUsage_increase_counterexample :
    ((NewMemoryCircuitBreaker.GetUsage "k").2 = .ok 0) ∧
    ((NewMemoryCircuitBreaker.AddUsage "k" 4611686018427387904).1.GetUsage "k").2
      = .ok (-9223372036854775808) ∧
    (-9223372036854775808 : Int) ≠ 0 + 4611686018427387904 * CostPerTokenMicroDollars := by
  exact ⟨rfl, rfl, by decide⟩

/-- C5 (amended): when the 64-bit arithmetic does not wrap — `tokenCount`
non-negative, the cost below `2^63`, and the prior spend an in-range `int64`
whose sum with the cost stays below `2^63` — `AddUsage` followed by
`GetUsage` shows an increase of exactly `tokenCount * CostPerTokenMicroDollars`;
and with the process constants, recording 5,000,000 tokens on a fresh caller
makes the spend exactly 10,000,000 and the caller denied. -/
theorem AddUsage_then_GetUsage_exact_increase
    (m : MemoryCircuitBreaker) (k : String) (n : Int)
    (hn : 0 ≤ n) (hcost : n * CostPerTokenMicroDollars < 2 ^ 63)
    (hlo : -(2 ^ 63) ≤ memSpend m k)
    (hhi : memSpend m k + n * CostPerTokenMicroDollars < 2 ^ 63) :
    ((m.AddUsage k n).1.GetUsage k).2
      = .ok (memSpend m k + n * CostPerTokenMicroDollars) ∧
    ((NewMemoryCircuitBreaker.AddUsage "k" 5000000).1.GetUsage "k").2 = .ok 10000000 ∧
    ((NewMemoryCircuitBreaker.AddUsage "k" 5000000).1.CheckLimit "k").2 = .ok false := by
  refine ⟨?_, rfl, rfl⟩
  simp only [memSpend] at hlo hhi ⊢
  have hc0 : 0 ≤ n * CostPerTokenMicroDollars := by
    have : (0 : Int) ≤ CostPerTokenMicroDollars := by norm_num [CostPerTokenMicroDollars]
    exact mul_nonneg hn this
  have hc1 : wrap64 (n * CostPerTokenMicroDollars) = n * CostPerTokenMicroDollars :=
    wrap64_eq_self _ (le_trans (by norm_num) hc0) hcost
  have hc2 : wrap64 ((m.usageMap k).getD 0 + n * CostPerTokenMicroDollars)
      = (m.usageMap k).getD 0 + n * CostPerTokenMicroDollars :=
    wrap64_eq_self _ (by linarith) hhi
  simp [MemoryCircuitBreaker.AddUsage, MemoryCircuitBreaker.GetUsage, hc1, hc2]

theorem AddUsage_then_GetUsage_exact_increase_witness :
    ((NewMemoryCircuitBreaker.AddUsage "k" 3).1.GetUsage "k").2 = .ok 6 := by
  have h := AddUsage_then_GetUsage_exact_increase NewMemoryCircuitBreaker "k" 3
    (by norm_num) (by norm_num [CostPerTokenMicroDollars])
    (by norm_num [memSpend, NewMemoryCircuitBreaker])
    (by norm_num [memSpend, NewMemoryCircuitBreaker, CostPerTokenMicroDollars])
  simpa [memSpend, NewMemoryCircuitBreaker, CostPerTokenMicroDollars] using h.1

/-- C6 counterexample: `AddUsage` accepts any `tokenCount`, and a negative
one strictly decreases the recorded spend: on a fresh caller with spend 0,
`AddUsage(k, -1)` drives the spend to `-2`. -/
theorem spend_monotone_counterexample :
    memSpend NewMemoryCircuitBreaker "k" = 0 ∧
    memSpend (NewMemoryCircuitBreaker.AddUsage "k" (-1)).1 "k" = -2 ∧
    ¬ (memSpend NewMemoryCircuitBreaker "k"
        ≤ memSpend (NewMemoryCircuitBreaker.AddUsage "k" (-1)).1 "k") := by
  exact ⟨rfl, rfl, by decide⟩

/-- C6 (amended): the recorded spend of every caller is non-decreasing under
`CheckLimit` and `GetUsage` (which leave the ledger untouched) and under
`AddUsage` with a non-negative `tokenCount` whose 64-bit cost computation
and 64-bit spend update do not wrap; this holds for both backends (the Redis
increment needs no bound on the prior spend, since an out-of-range result
makes `INCRBY` fail and leaves the stored value unchanged). -/
theorem spend_monotone_nonneg
    (m : MemoryCircuitBreaker) (st : RedisState) (k1 k2 : String) (n : Int)
    (hn : 0 ≤ n) (hcost : n * CostPerTokenMicroDollars < 2 ^ 63)
    (hlo : -(2 ^ 63) ≤ memSpend m k1)
    (hhi : memSpend m k1 + n * CostPerTokenMicroDollars < 2 ^ 63) :
    (m.CheckLimit k1).1 = m ∧ (m.GetUsage k1).1 = m ∧
    memSpend m k2 ≤ memSpend (m.AddUsage k1 n).1 k2 ∧
    (RedisCircuitBreaker.CheckLimit st k1).1 = st ∧
    (RedisCircuitBreaker.GetUsage st k1).1 = st ∧
    redisSpend st k2 ≤ redisSpend (RedisCircuitBreaker.AddUsage st k1 n).1 k2 := by
  have hc0 : 0 ≤ n * CostPerTokenMicroDollars := by
    have : (0 : Int) ≤ CostPerTokenMicroDollars := by norm_num [CostPerTokenMicroDollars]
    exact mul_nonneg hn this
  have hc1 : wrap64 (n * CostPerTokenMicroDollars) = n * CostPerTokenMicroDollars :=
    wrap64_eq_self _ (le_trans (by norm_num) hc0) hcost
  refine ⟨?_, ?_, ?_, ?_, ?_, ?_⟩
  · cases h : m.usageMap k1 <;> simp [MemoryCircuitBreaker.CheckLimit, h]
  · cases h : m.usageMap k1 <;> simp [MemoryCircuitBreaker.GetUsage, h]
  · by_cases hk : k2 = k1
    · subst hk
      simp only [memSpend] at hlo hhi ⊢
      have hc2 : wrap64 ((m.usageMap k2).getD 0 + n * CostPerTokenMicroDollars)
          = (m.usageMap k2).getD 0 + n * CostPerTokenMicroDollars :=
        wrap64_eq_self _ (by linarith) hhi
      simp [MemoryCircuitBreaker.AddUsage, hc1, hc2]
      linarith [hc0]
    · simp [MemoryCircuitBreaker.AddUsage, memSpend, hk]
  · cases h : st.store (getUsageKey k1) <;> simp [RedisCircuitBreaker.CheckLimit, h]
  · cases h : st.store (getUsageKey k1) <;> simp [RedisCircuitBreaker.GetUsage, h]
  · simp only [RedisCircuitBreaker.AddUsage, hc1]
    split
    · by_cases hk : getUsageKey k2 = getUsageKey k1
      · simp [redisSpend, hk]
        linarith [hc0]
      · simp [redisSpend, hk]
    · simp [redisSpend]

theorem spend_monotone_nonneg_witness :
    memSpend NewMemoryCircuitBreaker "k" ≤
      memSpend (NewMemoryCircuitBreaker.AddUsage "k" 3).1 "k" := by
  have h := spend_monotone_nonneg NewMemoryCircuitBreaker ⟨fun _ => none⟩ "k" "k" 3
    (by norm_num) (by norm_num [CostPerTokenMicroDollars])
    (by norm_num [memSpend, NewMemoryCircuitBreaker])
    (by norm_num [memSpend, NewMemoryCircuitBreaker, CostPerTokenMicroDollars])
  exact h.2.2.1

/-- C9: in the in-process backend, `CheckLimit` and `GetUsage` leave the
whole ledger state unchanged (so every spend, of the queried key included,
is unchanged), and `AddUsage` on one key leaves the entry of every other
key — hence its spend — unchanged. -/
theorem memory_ops_frame (m : MemoryCircuitBreaker) (k1 k2 : String) (n : Int)
    (hne : k2 ≠ k1) :
    (m.CheckLimit k1).1 = m ∧
    (m.GetUsage k1).1 = m ∧
    (m.AddUsage k1 n).1.usageMap k2 = m.usageMap k2 ∧
    memSpend (m.AddUsage k1 n).1 k2 = memSpend m k2 := by
  refine ⟨?_, ?_, ?_, ?_⟩
  · cases h : m.usageMap k1 <;> simp [MemoryCircuitBreaker.CheckLimit, h]
  · cases h : m.usageMap k1 <;> simp [MemoryCircuitBreaker.GetUsage, h]
  · simp [MemoryCircuitBreaker.AddUsage, hne]
  · simp [MemoryCircuitBreaker.AddUsage, memSpend, hne]

theorem memory_ops_frame_witness :
    ((NewMemoryCircuitBreaker.AddUsage "k1" 5).1.usageMap "k2"
      = NewMemoryCircuitBreaker.usageMap "k2") ∧
    (NewMemoryCircuitBreaker.CheckLimit "k1").1 = NewMemoryCircuitBreaker := by
  have h := memory_ops_frame NewMemoryCircuitBreaker "k1" "k2" 5 (by decide)
  exact ⟨h.2.2.1, h.1⟩

/-- C10: every operation of the in-process backend returns a nil error, for
every state, key and token count. -/
theorem memory_ops_infallible (m : MemoryCircuitBreaker) (k : String) (n : Int) :
    (∃ b, (m.CheckLimit k).2 = .ok b) ∧
    (m.AddUsage k n).2 = .ok () ∧
    (∃ v, (m.GetUsage k).2 = .ok v) := by
  refine ⟨?_, rfl, ?_⟩
  · cases h : m.usageMap k <;> simp [MemoryCircuitBreaker.CheckLimit, h]
  · cases h : m.usageMap k <;> simp [MemoryCircuitBreaker.GetUsage, h]

/-- Helper: `dropCR` is the identity on a line not ending in CR. -/
theorem dropCR_eq_self (l : List Nat) (h : l.getLast? ≠ some 13) : dropCR l = l := by
  simp [dropCR, h]

/-- Helper: the relay loop fold splits into its two components — the bytes
written are the lines each followed by one LF, and the final `tokenCount`
is the fold of `usageStep` over the lines. -/
theorem relay_foldl_split (p : List Nat → Option Int) (lines : List (List Nat))
    (acc : List Nat) (tc : Int) :
    lines.foldl
      (fun (st : List Nat × Int) line => (st.1 ++ line ++ [10], usageStep p st.2 line))
      (acc, tc)
      = (acc ++ joinLines lines, lines.foldl (usageStep p) tc) := by
  induction lines generalizing acc tc with
  | nil => simp [joinLines]
  | cons l ls ih =>
    simp only [List.foldl_cons, joinLines, ih]
    simp

/-- Helper: scanning a newline-terminated line that contains no LF and fits
the buffer emits exactly that line (CR-trimmed) and continues. -/
theorem scanGo_line (max : Nat) (l rest cur : List Nat)
    (hnl : 10 ∉ l) (hlen : cur.length + l.length < max) :
    scanGo max cur (l ++ 10 :: rest)
      = (dropCR (cur.reverse ++ l) :: (scanGo max [] rest).1, (scanGo max [] rest).2) := by
  induction l generalizing cur with
  | nil =>
    have hc : cur.length < max := by simpa using hlen
    simp [scanGo, hc]
  | cons a l ih =>
    have hc : cur.length < max := by
      have := hlen
      simp [List.length_cons] at this
      omega
    have ha : a ≠ 10 := by
      intro h
      exact hnl (by simp [h])
    have hnl2 : 10 ∉ l := fun h => hnl (by simp [h])
    have hlen2 : (a :: cur).length + l.length < max := by
      simp [List.length_cons] at hlen ⊢
      omega
    simp only [List.cons_append, scanGo, hc, if_pos, ha, if_neg, if_false]
    rw [show l.append (10 :: rest) = l ++ 10 :: rest from rfl, ih (a :: cur) hnl2 hlen2]
    simp

/-- Helper: scanning a concatenation of LF-terminated lines, none containing
an interior LF and all fitting the buffer, emits exactly the CR-trimmed
lines with no scanner error. -/
theorem scanGo_joinLines (max : Nat) (ls : List (List Nat))
    (h : ∀ l ∈ ls, 10 ∉ l ∧ l.length < max) :
    scanGo max [] (joinLines ls) = (ls.map dropCR, false) := by
  induction ls with
  | nil => simp [joinLines, scanGo]
  | cons l ls ih =>
    have h1 := h l (by simp)
    have h2 : ∀ x ∈ ls, 10 ∉ x ∧ x.length < max := fun x hx => h x (by simp [hx])
    rw [joinLines, scanGo_line max l (joinLines ls) [] h1.1 (by simpa using h1.2)]
    rw [ih h2]
    simp

/-- Helper: the last element of a non-empty cons, with default. -/
theorem getLast?_getD_cons (a : Int) (l : List Int) (d : Int) :
    (a :: l).getLast?.getD d = l.getLast?.getD a := by
  cases l with
  | nil => rfl
  | cons b m =>
    have h : (b :: m).getLast?.isSome := by
      rw [List.getLast?_isSome]
      simp
    obtain ⟨x, hx⟩ := Option.isSome_iff_exists.mp h
    simp [List.getLast?_cons_cons, hx]

/-- Helper: folding `usageStep` over the relayed lines yields the last
observed usage figure, or the initial value when none is observed —
later observations overwrite earlier ones. -/
theorem foldl_usageStep_eq_getLast (p : List Nat → Option Int)
    (lines : List (List Nat)) (tc : Int) :
    lines.foldl (usageStep p) tc = (observedFigures p lines).getLast?.getD tc := by
  induction lines generalizing tc with
  | nil => simp [observedFigures]
  | cons line rest ih =>
    by_cases h1 : dataMarker.isPrefixOf line
    · by_cases h2 : doneSequence.isPrefixOf (line.drop 6)
      · have hs : usageStep p tc line = tc := by simp [usageStep, h1, h2]
        have ho : observedFigures p (line :: rest) = observedFigures p rest := by
          simp [observedFigures, h1, h2]
        simp only [List.foldl_cons, hs, ho, ih]
      · cases hp : p (line.drop 6) with
        | none =>
          have hs : usageStep p tc line = tc := by simp [usageStep, h1, h2, hp]
          have ho : observedFigures p (line :: rest) = observedFigures p rest := by
            simp [observedFigures, h1, h2, hp]
          simp only [List.foldl_cons, hs, ho, ih]
        | some n =>
          have hs : usageStep p tc line = n := by simp [usageStep, h1, h2, hp]
          have ho : observedFigures p (line :: rest)
              = n :: observedFigures p rest := by
            simp [observedFigures, h1, h2, hp]
          simp only [List.foldl_cons, hs, ho, ih, getLast?_getD_cons]
    · have hs : usageStep p tc line = tc := by simp [usageStep, h1]
      have ho : observedFigures p (line :: rest) = observedFigures p rest := by
        simp [observedFigures, h1]
      simp only [List.foldl_cons, hs, ho, ih]

/-- C1 counterexample: the relay does not deliver the upstream bytes
verbatim for every body. For the two-byte upstream body `"hi"` (no
trailing newline) the scanner emits the final line and the relay appends an
LF, so the caller receives `"hi\\n"` — three bytes, not the original two. -/
theorem relay_not_byte_identical :
    (StreamResponse (fun _ => none) (strBytes "hi") "k" true).output
      ≠ strBytes "hi" := by decide

/-- C1 (amended): the relay writes each scanned line followed by exactly one
LF, so the delivered bytes equal the upstream bytes whenever the upstream
body is a sequence of LF-terminated lines, none containing an interior LF,
none ending in CR, and each shorter than the 1 MiB scanner buffer; outside
that shape a CRLF is rewritten to LF, an unterminated final line gains an
LF, and an oversized line aborts the stream. -/
theorem relay_output_line_transparent (p : List Nat → Option Int)
    (k : String) (c : Bool) (ls : List (List Nat))
    (h : ∀ l ∈ ls, 10 ∉ l ∧ l.getLast? ≠ some 13 ∧ l.length < scannerBufferMax) :
    (StreamResponse p (joinLines ls) k c).output = joinLines ls := by
  have hscan : scanGo scannerBufferMax [] (joinLines ls) = (ls.map dropCR, false) :=
    scanGo_joinLines scannerBufferMax ls (fun l hl => ⟨(h l hl).1, (h l hl).2.2⟩)
  have hmap : ls.map dropCR = ls := by
    rw [List.map_congr_left (fun l hl => dropCR_eq_self l (h l hl).2.1)]
    exact List.map_id ls
  rw [StreamResponse, hscan]
  simp only [hmap]
  rw [relay_foldl_split]
  simp

theorem relay_output_line_transparent_witness :
    (StreamResponse (fun _ => none) (joinLines [strBytes "data: hi"]) "k" true).output
      = joinLines [strBytes "data: hi"] := by
  exact relay_output_line_transparent (fun _ => none) "k" true [strBytes "data: hi"]
    (by decide)

/-- C2 (amended): at stream end exactly one usage event is submitted — with
`TokenCount` the last usage figure observed — iff that last observed
figure is strictly positive, the caller token is non-empty and the channel
is present; otherwise zero events. In particular a stream whose last (or
only) observed figure is 0 submits nothing, because the relay initialises
`tokenCount` to 0 and guards the dispatch with `tokenCount > 0`. -/
theorem relay_events_last_positive_figure (p : List Nat → Option Int)
    (body : List Nat) (k : String) (c : Bool) :
    (StreamResponse p body k c).events =
      (if 0 < (observedFigures p (scanGo scannerBufferMax [] body).1).getLast?.getD 0
          ∧ k ≠ "" ∧ c = true then
        [{ APIKey := k,
           TokenCount :=
             (observedFigures p (scanGo scannerBufferMax [] body).1).getLast?.getD 0 }]
      else []) := by
  rw [StreamResponse]
  simp only [relay_foldl_split, foldl_usageStep_eq_getLast]

/-- C2 counterexample: a stream carrying one usage-bearing record whose
`total_tokens` is 0, relayed for the non-empty caller token `"k"`: a usage
figure is observed (the oracle parses the figure 0), yet no usage event is
submitted, contradicting the claim that observing a figure with a non-empty
token yields exactly one event. -/
theorem relay_zero_usage_no_event :
    observedFigures usageOracleZero
        (scanGo scannerBufferMax [] usageBodyZero).1 = [0] ∧
    "k" ≠ "" ∧
    (StreamResponse usageOracleZero usageBodyZero "k" true).events = [] := by
  refine ⟨by decide, by decide, by decide⟩

/-- C3: evaluating the hand-off at a full queue. With capacity 1 and one
queued record, submitting another returns the dispatcher unchanged and
emits no observability signal at all — the drop is silent, with no count
or trace, contradicting the claim that drops are reported; with spare
capacity the event is enqueued (and the non-blocking enqueue half of the
claim holds). -/
theorem submit_drop_unreported :
    Dispatcher.submit ⟨1, [⟨"k1", 5⟩]⟩ ⟨"k2", 7⟩ = (⟨1, [⟨"k1", 5⟩]⟩, []) ∧
    Dispatcher.submit ⟨2, [⟨"k1", 5⟩]⟩ ⟨"k2", 7⟩ = (⟨2, [⟨"k1", 5⟩, ⟨"k2", 7⟩]⟩, []) := by
  exact ⟨rfl, rfl⟩

/-- Helper: map lookup on a cons cell. -/
theorem getField_cons (a : String × JsonVal) (m : Payload) (k2 : String) :
    getField (a :: m) k2 = if a.1 = k2 then some a.2 else getField m k2 := by
  by_cases h : a.1 = k2
  · rw [getField, List.find?_cons_of_pos _ (by simpa using h), if_pos h]
    rfl
  · rw [getField, List.find?_cons_of_neg _ (by simpa using h), if_neg h]
    rfl

/-- Helper: replacing every binding of key `k` leaves lookups of other keys
unchanged. -/
theorem getField_map_replace (m : Payload) (k k2 : String) (v : JsonVal)
    (h : k2 ≠ k) :
    getField (m.map (fun q => if q.1 = k then (k, v) else q)) k2 = getField m k2 := by
  induction m with
  | nil => rfl
  | cons a rest ih =>
    rw [List.map_cons]
    by_cases ha : a.1 = k
    · rw [if_pos ha, getField_cons, getField_cons,
        if_neg (show ¬(k, v).1 = k2 from fun hh => h hh.symm),
        if_neg (show ¬a.1 = k2 from fun hh => h (hh ▸ ha))]
      exact ih
    · rw [if_neg ha, getField_cons, getField_cons]
      by_cases ha2 : a.1 = k2
      · rw [if_pos ha2, if_pos ha2]
      · rw [if_neg ha2, if_neg ha2]
        exact ih

/-- Helper: replacing every binding of a present key `k` makes its lookup
the new value. -/
theorem getField_map_replace_self (m : Payload) (k : String) (v : JsonVal)
    (h : m.any (fun q => q.1 = k) = true) :
    getField (m.map (fun q => if q.1 = k then (k, v) else q)) k = some v := by
  induction m with
  | nil => simp at h
  | cons a rest ih =>
    rw [List.map_cons]
    by_cases ha : a.1 = k
    · rw [if_pos ha, getField_cons, if_pos rfl]
    · rw [if_neg ha, getField_cons, if_neg ha]
      apply ih
      simpa [List.any_cons, ha] using h

/-- Helper: appending a binding for an absent key makes its lookup the new
value. -/
theorem getField_append_self (m : Payload) (k : String) (v : JsonVal)
    (h : m.any (fun q => q.1 = k) = false) :
    getField (m ++ [(k, v)]) k = some v := by
  induction m with
  | nil =>
    rw [List.nil_append, getField_cons, if_pos rfl]
  | cons a rest ih =>
    simp only [List.any_cons, Bool.or_eq_false_iff] at h
    rw [List.cons_append, getField_cons, if_neg (by simpa using h.1)]
    exact ih h.2

/-- Helper: appending a binding for key `k` leaves lookups of other keys
unchanged. -/
theorem getField_append_other (m : Payload) (k k2 : String) (v : JsonVal)
    (h : k2 ≠ k) :
    getField (m ++ [(k, v)]) k2 = getField m k2 := by
  induction m with
  | nil =>
    rw [List.nil_append, getField_cons,
      if_neg (show ¬(k, v).1 = k2 from fun hh => h hh.symm)]
  | cons a rest ih =>
    rw [List.cons_append, getField_cons, getField_cons]
    by_cases ha : a.1 = k2
    · rw [if_pos ha, if_pos ha]
    · rw [if_neg ha, if_neg ha]
      exact ih

/-- Helper: Go map assignment semantics of `setField` as seen through
`getField`: the assigned key reads back the new value, every other key is
untouched. -/
theorem getField_setField (m : Payload) (k k2 : String) (v : JsonVal) :
    getField (setField m k v) k2 = if k2 = k then some v else getField m k2 := by
  cases hany : m.any (fun q => q.1 = k) with
  | true =>
    rw [setField, if_pos (by simpa using hany)]
    by_cases h : k2 = k
    · subst h
      rw [getField_map_replace_self m k2 v hany, if_pos rfl]
    · rw [getField_map_replace m k k2 v h, if_neg h]
  | false =>
    rw [setField, if_neg (by simp [hany])]
    by_cases h : k2 = k
    · subst h
      rw [getField_append_self m k2 v hany, if_pos rfl]
    · rw [getField_append_other m k k2 v h, if_neg h]

/-- C7: for every decoded request object — the empty body decoding to the
empty object included — the rewritten outbound body maps `"stream"` to
`true` and `"stream_options"` to the object with `"include_usage"` set to
`true` regardless of their original values, and every other field is
preserved. -/
theorem rewrite_forces_stream_fields (payload : Payload)
    (jdec : List Nat → Option (Option Payload)) :
    getField (rewritePayload payload) "stream" = some (.bool true) ∧
    getField (rewritePayload payload) "stream_options"
      = some (.obj [("include_usage", .bool true)]) ∧
    (∀ k1, k1 ≠ "stream" → k1 ≠ "stream_options" →
      getField (rewritePayload payload) k1 = getField payload k1) ∧
    serveBody jdec [] = .forwarded (rewritePayload []) := by
  refine ⟨?_, ?_, ?_, rfl⟩
  · rw [rewritePayload, getField_setField,
      if_neg (show ¬"stream" = "stream_options" by decide),
      getField_setField, if_pos rfl]
  · rw [rewritePayload, getField_setField, if_pos rfl]
  · intro k1 h1 h2
    rw [rewritePayload, getField_setField, if_neg h2, getField_setField, if_neg h1]

theorem rewrite_forces_stream_fields_witness :
    getField (rewritePayload [("model", .str "gpt")]) "stream"
      = some (.bool true) ∧
    getField (rewritePayload [("model", .str "gpt")]) "model"
      = some (.str "gpt") := by
  have h := rewrite_forces_stream_fields [("model", .str "gpt")] (fun _ => none)
  refine ⟨h.1, ?_⟩
  rw [h.2.2.1 "model" (by decide) (by decide)]
  rfl

/-- C8 counterexample: a request with an unparsable non-empty body whose
caller is already over the limit is answered with 402, not with the claimed
400-equivalent — the admission check runs before the body is parsed. -/
theorem handler_unparsable_counterexample :
    ServeHTTP jdecInvalid (.ok false) "Bearer k" (strBytes "notjson")
      = .errorResponse 402 ∧
    ServeHTTP jdecInvalid (.ok false) "Bearer k" (strBytes "notjson")
      ≠ .errorResponse 400 := by
  have h : ServeHTTP jdecInvalid (.ok false) "Bearer k" (strBytes "notjson")
      = .errorResponse 402 := by
    rw [ServeHTTP, if_pos (show extractAPIKey "Bearer k" ≠ "" by decide)]
  refine ⟨h, ?_⟩
  rw [h]
  simp

/-- C8 (amended): a request with an unparsable non-empty body is answered
with 400 provided the admission stage does not intercept first (no caller
token, or the check allows); and in every case — whatever the admission
outcome — no upstream request is made. -/
theorem handler_unparsable_rejected (jdec : List Nat → Option (Option Payload))
    (check : Except String Bool) (auth : String) (body : List Nat)
    (hb : body ≠ []) (hd : jdec body = none) :
    ((extractAPIKey auth = "" ∨ check = .ok true) →
      ServeHTTP jdec check auth body = .errorResponse 400) ∧
    (∀ out, ServeHTTP jdec check auth body ≠ .forwarded out) := by
  have hlen : body.length > 0 := by
    cases body with
    | nil => exact absurd rfl hb
    | cons a l => simp
  have hbody : serveBody jdec body = .errorResponse 400 := by
    rw [serveBody, if_pos hlen, hd]
  constructor
  · intro h
    rcases h with h | h
    · rw [ServeHTTP.eq_def, if_neg (by simpa using h)]
      exact hbody
    · by_cases hk : extractAPIKey auth = ""
      · rw [ServeHTTP.eq_def, if_neg (by simpa using hk)]
        exact hbody
      · rw [ServeHTTP.eq_def, if_pos hk, h]
        exact hbody
  · intro out
    by_cases hk : extractAPIKey auth = ""
    · rw [ServeHTTP.eq_def, if_neg (by simpa using hk), hbody]
      simp
    · rw [ServeHTTP.eq_def, if_pos hk]
      cases check with
      | error e => simp
      | ok b =>
        cases b
        · simp
        · rw [hbody]
          simp

theorem handler_unparsable_rejected_witness :
    ServeHTTP jdecInvalid (.ok true) "Bearer k" (strBytes "notjson")
      = .errorResponse 400 ∧
    ServeHTTP jdecInvalid (.ok true) "Bearer k" (strBytes "notjson")
      ≠ .forwarded (rewritePayload []) := by
  have h := handler_unparsable_rejected jdecInvalid (.ok true) "Bearer k"
    (strBytes "notjson") (by decide) rfl
  exact ⟨h.1 (Or.inr rfl), h.2 (rewritePayload [])⟩
